import Mathlib

/-!
Verification of the connection and remote-object-registry protocol layer of
the playwright-rust client library, together with the installer (`Driver`)
and the entry-point API surface (`Playwright`).

The registry, dispatcher, router and connection components are modelled from
the specification (their Rust sources are not part of this snapshot; only the
installer `imp/core/driver.rs` and the API entry point `api/playwright.rs`
are present).  The installer and the `Playwright` accessors are translated
from the Rust source directly.
-/

namespace PlaywrightRust

/-- Guids are opaque strings assigned by the engine. -/
abbrev Guid := String

/-- Modelled from the spec: a Remote Object Descriptor has a type tag, an
optional parent guid (none for the root), an initialization payload and a
queue of undelivered events (§3 "Remote Object Descriptor"). -/
structure Descriptor where
  typeTag : String
  parentGuid : Option Guid
  initPayload : String
  events : List String
deriving Repr, DecidableEq

/-- Modelled from the spec: the Object Registry is a mapping from guid to
descriptor (§2, §4.2).  Entries are kept newest-first; `register` prepends,
so every entry's parent (checked present at registration time) sits strictly
deeper in the list. -/
structure Registry where
  entries : List (Guid × Descriptor)
deriving Repr, DecidableEq

/-- The empty registry, the state at connection start. -/
def Registry.empty : Registry := ⟨[]⟩

/-- The guids currently registered. -/
def Registry.guids (r : Registry) : List Guid := r.entries.map (·.1)

/-- Modelled from the spec: `lookup(guid)` returns the descriptor if live
(§4.2); an absent result signals `UnknownObject`. -/
def Registry.lookup (r : Registry) (g : Guid) : Option Descriptor :=
  (r.entries.find? (fun e => e.1 == g)).map (·.2)

/-- Modelled from the spec: registration errors of §4.2. -/
inductive RegError where
  | DuplicateGuid
  | OrphanObject
deriving Repr, DecidableEq

/-- Modelled from the spec: `register(guid, type_tag, parent_guid,
init_payload)` fails with `DuplicateGuid` if the guid is present, rejects an
unknown parent with `OrphanObject`, and otherwise inserts a new descriptor
(§4.2). -/
def Registry.register (r : Registry) (g : Guid) (tag : String)
    (parent : Option Guid) (payload : String) : Except RegError Registry :=
  if g ∈ r.guids then .error .DuplicateGuid
  else
    match parent with
    | none => .ok ⟨(g, ⟨tag, none, payload, []⟩) :: r.entries⟩
    | some p =>
        if p ∈ r.guids then .ok ⟨(g, ⟨tag, some p, payload, []⟩) :: r.entries⟩
        else .error .OrphanObject

/-- Modelled from the spec: the set of guids removed when `g` is disposed —
`g` itself plus every registered descendant whose parent chain resolves to
`g` (§4.2, glossary "Cascade disposal").  Entries are scanned oldest-first
(parents are always older than their children), marking each entry whose
parent is already marked. -/
def markDescendants (g : Guid) : List (Guid × Descriptor) → List Guid
  | [] => [g]
  | (x, d) :: older =>
      let marked := markDescendants g older
      match d.parentGuid with
      | some p => if p ∈ marked then x :: marked else marked
      | none => marked

/-- Modelled from the spec: `dispose(guid)` removes the descriptor and all
descendants; disposing an unknown guid is a no-op, not an error (§4.2). -/
def Registry.dispose (r : Registry) (g : Guid) : Registry :=
  if g ∈ r.guids then
    ⟨r.entries.filter (fun e => ¬ e.1 ∈ markDescendants g r.entries)⟩
  else r

/-- Modelled from the spec: `dispose_all()` disposes every live descriptor
at connection teardown (§4.2). -/
def Registry.dispose_all (_r : Registry) : Registry := Registry.empty

/-- Modelled from the spec: a lifecycle notification — object creation or
disposal (§4.4, §6 wire shape (c)). -/
inductive Note where
  | register (g : Guid) (tag : String) (parent : Option Guid) (payload : String)
  | dispose (g : Guid)
deriving Repr, DecidableEq

/-- Modelled from the spec: processing one lifecycle notification.  A
rejected registration (`DuplicateGuid`/`OrphanObject`) is logged and the
message dropped, leaving the registry unchanged (§7). -/
def Registry.applyNote (r : Registry) : Note → Registry
  | .register g tag parent payload =>
      match r.register g tag parent payload with
      | .ok r2 => r2
      | .error _ => r
  | .dispose g => r.dispose g

/-- Processing a whole sequence of lifecycle notifications in wire order. -/
def Registry.applyNotes (r : Registry) (s : List Note) : Registry :=
  s.foldl Registry.applyNote r

/-! ### Declarative liveness, following the words of the specification

"after processing, `lookup` succeeds exactly for guids that have been
registered and not yet disposed (directly or via ancestor cascade)" (§8).
The reference model keeps, per live guid, its full ancestor chain; a
disposal of `g` deletes `g` and every guid that lists `g` among its
ancestors. -/

/-- Reference model: each live guid paired with its chain of strict
ancestors, nearest parent first. -/
abbrev AncMap := List (Guid × List Guid)

/-- One notification in the reference model.  A registration of a fresh
guid with a known parent records the parent chain; a disposal deletes the
guid and everything descending from it. -/
def ancStep (m : AncMap) : Note → AncMap
  | .register g _ parent _ =>
      if g ∈ m.map (·.1) then m
      else
        match parent with
        | none => (g, []) :: m
        | some p =>
            match m.find? (fun e => e.1 == p) with
            | some e => (g, p :: e.2) :: m
            | none => m
  | .dispose g => m.filter (fun e => ¬ (e.1 = g ∨ g ∈ e.2))

/-- The guids that, per the specification's words, have been registered by
the sequence and not subsequently disposed directly or via an ancestor in
their parent chain. -/
def liveGuids (s : List Note) : List Guid :=
  (s.foldl ancStep []).map (·.1)

/-- Invariant of the reference model: guids are distinct, a root entry has
an empty chain, and a child entry's chain is its parent consed onto the
parent's chain, the parent being an older (deeper) entry. -/
inductive ChainWF : AncMap → Prop where
  | nil : ChainWF []
  | consRoot (g : Guid) (m : AncMap) :
      g ∉ m.map (·.1) → ChainWF m → ChainWF ((g, []) :: m)
  | consChild (g p : Guid) (rest : List Guid) (m : AncMap) :
      g ∉ m.map (·.1) → (p, rest) ∈ m → ChainWF m →
      ChainWF ((g, p :: rest) :: m)

/-- A chain is good in `m` when each of its elements is an entry of `m`
carrying the remaining chain as its own ancestor chain. -/
def GoodChain (m : AncMap) : List Guid → Prop
  | [] => True
  | a :: t => (a, t) ∈ m ∧ GoodChain m t

/-- Simulation relation: the reference model and the registry's entry list
pair up guid by guid, in order, and a descriptor's parent guid is the head
of the reference entry's ancestor chain. -/
inductive Corr : AncMap → List (Guid × Descriptor) → Prop where
  | nil : Corr [] []
  | cons (g : Guid) (ancs : List Guid) (d : Descriptor) (m : AncMap)
      (l : List (Guid × Descriptor)) :
      d.parentGuid = ancs.head? → Corr m l →
      Corr ((g, ancs) :: m) ((g, d) :: l)

/-! ### Request Dispatcher -/

/-- Modelled from the spec: how one Pending Call resolves — the response
payload, an engine-reported error, or `ConnectionClosed` at teardown
(§4.3, §7). -/
inductive Outcome where
  | success (payload : String)
  | engineError (msg : String)
  | connectionClosed
deriving Repr, DecidableEq

/-- Modelled from the spec: the Request Dispatcher assigns a monotonically
increasing correlation id and keeps a pending table; each completed call's
single-fulfillment slot is recorded with its outcome (§3 "Pending Call",
§4.3). -/
structure Dispatcher where
  nextId : Nat
  pending : List Nat
  completed : List (Nat × Outcome)
deriving Repr, DecidableEq

/-- The dispatcher at connection start: no calls issued. -/
def Dispatcher.empty : Dispatcher := ⟨0, [], []⟩

/-- Modelled from the spec: `call` allocates the next correlation id and
records a Pending Call; the returned id identifies the caller's slot
(§4.3). -/
def Dispatcher.call (d : Dispatcher) : Nat × Dispatcher :=
  (d.nextId, ⟨d.nextId + 1, d.nextId :: d.pending, d.completed⟩)

/-- Modelled from the spec: delivering a response completes the one Pending
Call whose correlation id matches; a response for an id with no pending
entry is dropped (§4.3, §5 cancellation note). -/
def Dispatcher.deliver (d : Dispatcher) (c : Nat) (payload : String) : Dispatcher :=
  if c ∈ d.pending then
    ⟨d.nextId, d.pending.filter (fun x => ¬ x = c), (c, .success payload) :: d.completed⟩
  else d

/-- The outcome a given correlation id's waiter has observed, if any. -/
def Dispatcher.outcomeOf (d : Dispatcher) (c : Nat) : Option Outcome :=
  (d.completed.find? (fun e => e.1 == c)).map (·.2)

/-- Modelled from the spec: connection teardown fails every outstanding
Pending Call with `ConnectionClosed` and empties the pending table
(§4.5, §7). -/
def Dispatcher.close (d : Dispatcher) : Dispatcher :=
  ⟨d.nextId, [], d.pending.map (fun c => (c, Outcome.connectionClosed)) ++ d.completed⟩

/-! ### Event Router -/

/-- Modelled from the spec: routing a domain event targeted at a guid —
if the guid is live the event is appended to that descriptor's queue; if it
is unknown the event is dropped, not fatal, and the registry is untouched
(§4.4). -/
def Registry.routeEvent (r : Registry) (g : Guid) (ev : String) : Registry :=
  ⟨r.entries.map (fun e =>
      if e.1 = g then (e.1, { e.2 with events := e.2.events ++ [ev] }) else e)⟩

/-! ### Connection state machine -/

/-- Modelled from the spec: the Connection State values (§3). -/
inductive ConnState where
  | connecting
  | ready
  | closing
  | closed
deriving Repr, DecidableEq

/-- Position of a state in the Connecting → Ready → Closing → Closed
order. -/
def ConnState.rank : ConnState → Nat
  | .connecting => 0
  | .ready => 1
  | .closing => 2
  | .closed => 3

/-- Modelled from the spec: the connection's transitions — the root object
is observed (Connecting → Ready); shutdown begins, from either live state
(→ Closing); teardown completes (Closing → Closed) (§3, §4.5). -/
inductive ConnStep : ConnState → ConnState → Prop where
  | rootObserved : ConnStep .connecting .ready
  | beginCloseEarly : ConnStep .connecting .closing
  | beginClose : ConnStep .ready .closing
  | finishClose : ConnStep .closing .closed

/-! ### Connection bootstrap -/

/-- Modelled from the spec: error classes relevant to the bootstrap — the
connection-closed class versus the timeout class (§4.5, §7). -/
inductive ConnError where
  | connectionClosed
  | initializationTimeout
deriving Repr, DecidableEq

/-- Whether a lifecycle notification registers some object. -/
def Note.isRegister : Note → Bool
  | .register _ _ _ _ => true
  | .dispose _ => false

/-- Modelled from the spec: `wait_initial_object()` suspends until the
Object Registry's first registration and returns a handle to it; if the
subprocess exits or the stream closes (the finite inbound sequence ends)
before any object is registered, it fails with the connection-closed-class
error (§4.5, §8 scenario; §7: no suspension point hangs forever). -/
def wait_initial_object : List Note → Except ConnError Guid
  | [] => .error .connectionClosed
  | .register g _ _ _ :: _ => .ok g
  | .dispose _ :: rest => wait_initial_object rest

/-- Modelled from the spec plus `Playwright::with_driver`
(src/api/playwright.rs:99): the constructor runs the connection and awaits
the initial object, propagating its failure. -/
def with_driver (msgs : List Note) : Except ConnError Guid :=
  match wait_initial_object msgs with
  | .ok g => .ok g
  | .error e => .error e

/-! ### Installer (`Driver`), translated from src/imp/core/driver.rs -/

/-- `Driver` holds the installation path (src/imp/core/driver.rs:5). -/
structure Driver where
  path : String
deriving Repr, DecidableEq

/-- `Driver::new` wraps a path without preparing it
(src/imp/core/driver.rs:23). -/
def Driver.new (p : String) : Driver := ⟨p⟩

/-- The filesystem environment `Driver::install` runs against: the cache
directory (`dirs::cache_dir()`, falling back to the temp directory), which
paths are directories, and whether each fallible step succeeds. -/
structure FsEnv where
  cacheDir : Option String
  tempDir : String
  isDir : String → Bool
  createDirOk : Bool
  zipOpenOk : Bool
  extractOk : Bool

/-- `Driver::default_dest` joins the cache directory (or the temp
directory when there is none) with `ms-playwright/playwright-rust/driver`
(src/imp/core/driver.rs:33). -/
def Driver.default_dest (env : FsEnv) : String :=
  (env.cacheDir.getD env.tempDir) ++ "/ms-playwright/playwright-rust/driver"

/-- Filesystem operations `Driver::prepare` attempts, in order. -/
inductive FsAction where
  | createDirAll (path : String)
  | extractZip (path : String)
deriving Repr, DecidableEq

/-- The failures of `Driver::prepare`: `fs::create_dir_all`,
`ZipArchive::new` on the embedded bytes, or `archive.extract`
(src/imp/core/driver.rs:27). -/
inductive InstallError where
  | createDirFailed
  | zipOpenFailed
  | extractFailed
deriving Repr, DecidableEq

/-- `Driver::prepare` creates the destination directory, opens the bundled
zip archive and extracts it there, stopping at the first failing step
(src/imp/core/driver.rs:27).  Returns the attempted filesystem actions and
the failure, if any. -/
def Driver.prepare (env : FsEnv) (d : Driver) : List FsAction × Option InstallError :=
  if ¬ env.createDirOk then ([.createDirAll d.path], some .createDirFailed)
  else if ¬ env.zipOpenOk then ([.createDirAll d.path], some .zipOpenFailed)
  else if ¬ env.extractOk then
    ([.createDirAll d.path, .extractZip d.path], some .extractFailed)
  else ([.createDirAll d.path, .extractZip d.path], none)

/-- `Driver::install` builds the driver at the default destination and
prepares it only when the destination is not already a directory
(src/imp/core/driver.rs:14). -/
def Driver.install (env : FsEnv) : List FsAction × Except InstallError Driver :=
  let d := Driver.new (Driver.default_dest env)
  if env.isDir d.path then ([], .ok d)
  else
    match Driver.prepare env d with
    | (acts, none) => (acts, .ok d)
    | (acts, some e) => (acts, .error e)

/-! ### Entry-point API surface, translated from src/api/playwright.rs -/

/-- Rust `Weak<T>` modelled as an optional value: `upgrade` yields the
value exactly while the backing allocation is alive (spec §9: weak handles
whose upgrade fails cleanly once the object is gone). -/
abbrev Weak (α : Type) := Option α

/-- `Weak::upgrade`. -/
def Weak.upgrade {α : Type} (w : Weak α) : Option α := w

/-- `Weak::new`, the empty weak handle that never upgrades. -/
def Weak.empty {α : Type} : Weak α := none

/-- A device descriptor entry (name plus opaque configuration). -/
structure DeviceDescriptor where
  name : String
  config : String
deriving Repr, DecidableEq

/-- Opaque stand-in for the browser-type implementation object. -/
structure BrowserTypeImpl where
  ident : Guid
deriving Repr, DecidableEq

/-- Opaque stand-in for the selectors implementation object. -/
structure SelectorsImpl where
  ident : Guid
deriving Repr, DecidableEq

/-- Modelled from the spec: the typed API layer holds weak handles into
the registry (§3 ownership, §6 collaborator interface).  The `Playwright`
implementation object exposes weak handles to the three browser types, an
optional selectors object, and the device list (callers of
src/api/playwright.rs). -/
structure PlaywrightImpl where
  chromiumObj : Weak BrowserTypeImpl
  firefoxObj : Weak BrowserTypeImpl
  webkitObj : Weak BrowserTypeImpl
  selectorsObj : Option (Weak SelectorsImpl)
  devicesList : List DeviceDescriptor
deriving Repr, DecidableEq

/-- The implementation's by-name device lookup. -/
def PlaywrightImpl.device (i : PlaywrightImpl) (name : String) : Option DeviceDescriptor :=
  i.devicesList.find? (fun d => d.name == name)

/-- `BrowserType` wraps a weak handle to its implementation
(src/api/browser_type.rs, used at src/api/playwright.rs:222). -/
structure BrowserType where
  inner : Weak BrowserTypeImpl
deriving Repr, DecidableEq

/-- `BrowserType::new`. -/
def BrowserType.new (w : Weak BrowserTypeImpl) : BrowserType := ⟨w⟩

/-- `Selectors` wraps a weak handle to its implementation
(src/api/playwright.rs:321). -/
structure Selectors where
  inner : Weak SelectorsImpl
deriving Repr, DecidableEq

/-- `Selectors::new`. -/
def Selectors.new (w : Weak SelectorsImpl) : Selectors := ⟨w⟩

/-- The prelude helper `upgrade(&weak)` (used at
src/api/playwright.rs:347). -/
def upgrade {α : Type} (w : Weak α) : Option α := Weak.upgrade w

/-- The prelude helper `weak_and_then(&weak, f)`: upgrade, apply `f` to
the strong value, or return the empty weak handle (used at
src/api/playwright.rs:249). -/
def weak_and_then {α β : Type} (w : Weak α) (f : α → Weak β) : Weak β :=
  match Weak.upgrade w with
  | none => Weak.empty
  | some rc => f rc

/-- The `Playwright` entry point: the driver, and a weak handle to the
implementation kept alive by the connection (src/api/playwright.rs:10). -/
structure Playwright where
  driver : Driver
  inner : Weak PlaywrightImpl

/-- `Playwright::chromium` (src/api/playwright.rs:222): upgrade the inner
handle and wrap its chromium handle, or wrap an empty weak handle. -/
def Playwright.chromium (p : Playwright) : BrowserType :=
  match Weak.upgrade p.inner with
  | some playwright_impl => BrowserType.new playwright_impl.chromiumObj
  | none => BrowserType.new Weak.empty

/-- `Playwright::firefox` (src/api/playwright.rs:248). -/
def Playwright.firefox (p : Playwright) : BrowserType :=
  BrowserType.new (weak_and_then p.inner (fun rc => rc.firefoxObj))

/-- `Playwright::webkit` (src/api/playwright.rs:269). -/
def Playwright.webkit (p : Playwright) : BrowserType :=
  BrowserType.new (weak_and_then p.inner (fun rc => rc.webkitObj))

/-- `Playwright::selectors` (src/api/playwright.rs:318). -/
def Playwright.selectors (p : Playwright) : Option Selectors := do
  let inner ← Weak.upgrade p.inner
  let selectors_weak ← inner.selectorsObj
  some (Selectors.new selectors_weak)

/-- `Playwright::devices` (src/api/playwright.rs:346): the device list, or
the default empty vector when the handle cannot be upgraded. -/
def Playwright.devices (p : Playwright) : List DeviceDescriptor :=
  ((upgrade p.inner).map (fun x => x.devicesList)).getD []

/-- `Playwright::device` (src/api/playwright.rs:379). -/
def Playwright.device (p : Playwright) (name : String) : Option DeviceDescriptor := do
  let inner ← Weak.upgrade p.inner
  let device ← inner.device name
  some device

/-! ## Theorems -/

/-- The disposed guid always belongs to its own cascade set. -/
theorem self_mem_markDescendants (g : Guid) (l : List (Guid × Descriptor)) :
    g ∈ markDescendants g l := by
  induction l with
  | nil => simp [markDescendants]
  | cons e older ih =>
      obtain ⟨x, d⟩ := e
      simp only [markDescendants]
      cases hd : d.parentGuid with
      | none => exact ih
      | some p =>
          by_cases hp : p ∈ markDescendants g older
          · simp [hp, List.mem_cons, ih]
          · simp [hp, ih]

/-- Disposing a guid that is not registered leaves the registry
unchanged. -/
theorem dispose_unknown_noop (r : Registry) (g : Guid) (h : g ∉ r.guids) :
    r.dispose g = r := by
  unfold Registry.dispose
  rw [if_neg h]

/-- After `dispose g`, the guid `g` is no longer registered. -/
theorem not_mem_guids_dispose_self (r : Registry) (g : Guid) :
    g ∉ (r.dispose g).guids := by
  unfold Registry.dispose
  by_cases h : g ∈ r.guids
  · rw [if_pos h]
    intro hg
    rcases List.mem_map.mp hg with ⟨e, he, hfst⟩
    rcases List.mem_filter.mp he with ⟨_, hkeep⟩
    simp only [decide_eq_true_eq] at hkeep
    exact hkeep (by rw [hfst]; exact self_mem_markDescendants g r.entries)
  · rw [if_neg h]
    exact h

/-- C4: the Object Registry's dispose operation is idempotent — disposing
an unknown guid leaves the registry unchanged (and, the operation being
total, returns no error), and disposing twice has the effect of disposing
once. -/
theorem registry_dispose_idempotent (r : Registry) (g : Guid) :
    (g ∉ r.guids → r.dispose g = r) ∧ (r.dispose g).dispose g = r.dispose g :=
  ⟨dispose_unknown_noop r g,
    dispose_unknown_noop _ g (not_mem_guids_dispose_self r g)⟩

/-- C4 witness: disposing the unknown guid "x" from a one-entry registry is
a no-op, and disposing "r0" twice equals disposing it once. -/
theorem registry_dispose_idempotent_witness :
    ("x" ∉ (Registry.mk [("r0", ⟨"Root", none, "", []⟩)]).guids) ∧
      ((Registry.mk [("r0", ⟨"Root", none, "", []⟩)]).dispose "x" =
        Registry.mk [("r0", ⟨"Root", none, "", []⟩)]) ∧
      (((Registry.mk [("r0", ⟨"Root", none, "", []⟩)]).dispose "r0").dispose "r0" =
        (Registry.mk [("r0", ⟨"Root", none, "", []⟩)]).dispose "r0") := by
  refine ⟨by decide, ?_, ?_⟩
  · exact (registry_dispose_idempotent (Registry.mk [("r0", ⟨"Root", none, "", []⟩)]) "x").1
      (by decide)
  · exact (registry_dispose_idempotent (Registry.mk [("r0", ⟨"Root", none, "", []⟩)]) "r0").2

/-- C6: routing a domain event whose target guid is not registered leaves
the Object Registry unchanged; the router is a total function, so no panic
occurs and no error is surfaced. -/
theorem route_event_unknown_guid_noop (r : Registry) (g : Guid) (ev : String)
    (h : g ∉ r.guids) : r.routeEvent g ev = r := by
  unfold Registry.routeEvent
  have : ∀ e ∈ r.entries,
      (if e.1 = g then (e.1, { e.2 with events := e.2.events ++ [ev] }) else e) = e := by
    intro e he
    have : e.1 ≠ g := by
      intro hx
      exact h (List.mem_map.mpr ⟨e, he, hx⟩)
    simp [this]
  cases r with
  | mk entries =>
      congr 1
      calc entries.map _ = entries.map id := List.map_congr_left this
        _ = entries := List.map_id entries

/-- C6 witness: an event for the unregistered guid "x9" is dropped without
mutating a registry holding only "r0". -/
theorem route_event_unknown_guid_noop_witness :
    (Registry.mk [("r0", ⟨"Root", none, "", []⟩)]).routeEvent "x9" "console" =
      Registry.mk [("r0", ⟨"Root", none, "", []⟩)] :=
  route_event_unknown_guid_noop (Registry.mk [("r0", ⟨"Root", none, "", []⟩)])
    "x9" "console" (by decide)

/-- C9: once the weak handle to the implementation can no longer be
upgraded, `devices` returns the empty vector and `device`/`selectors`
return `none`; all three are total functions, so no panic and no error
value occur. -/
theorem playwright_accessors_on_dead_handle (p : Playwright)
    (h : Weak.upgrade p.inner = none) :
    p.devices = [] ∧ (∀ name, p.device name = none) ∧ p.selectors = none := by
  refine ⟨?_, ?_, ?_⟩
  · simp [Playwright.devices, upgrade, h]
  · intro name
    simp [Playwright.device, h]
  · simp [Playwright.selectors, h]

/-- C9 witness: the accessors on a `Playwright` whose inner handle is
dead. -/
theorem playwright_accessors_on_dead_handle_witness :
    (Playwright.mk ⟨"driver"⟩ none).devices = [] ∧
      (Playwright.mk ⟨"driver"⟩ none).device "iPhone 12" = none ∧
      (Playwright.mk ⟨"driver"⟩ none).selectors = none := by
  have h := playwright_accessors_on_dead_handle (Playwright.mk ⟨"driver"⟩ none) rfl
  exact ⟨h.1, h.2.1 "iPhone 12", h.2.2⟩

/-- C10: the browser-type accessors are total — each returns a
`BrowserType` for every state of the `Playwright` value (totality is by
construction: they return plain `BrowserType`, not an error type), and
when the inner handle is dead each returns a `BrowserType` wrapping the
empty weak handle. -/
theorem browser_accessors_total (p : Playwright)
    (h : Weak.upgrade p.inner = none) :
    p.chromium = BrowserType.new Weak.empty ∧
      p.firefox = BrowserType.new Weak.empty ∧
      p.webkit = BrowserType.new Weak.empty := by
  refine ⟨?_, ?_, ?_⟩
  · simp [Playwright.chromium, h]
  · simp [Playwright.firefox, weak_and_then, h]
  · simp [Playwright.webkit, weak_and_then, h]

/-- C10 witness: the three accessors on a dead handle all yield the
empty-weak `BrowserType`. -/
theorem browser_accessors_total_witness :
    (Playwright.mk ⟨"driver"⟩ none).chromium = BrowserType.new Weak.empty ∧
      (Playwright.mk ⟨"driver"⟩ none).firefox = BrowserType.new Weak.empty ∧
      (Playwright.mk ⟨"driver"⟩ none).webkit = BrowserType.new Weak.empty :=
  browser_accessors_total (Playwright.mk ⟨"driver"⟩ none) rfl

/-- C5: if the stream ends (subprocess exit or stream close) before any
object registration, `wait_initial_object` — and `Playwright::with_driver`,
which awaits it — fails with the connection-closed-class error, not the
timeout class; being a total function of the finite inbound sequence, it
never hangs forever. -/
theorem wait_initial_object_connection_closed (msgs : List Note)
    (h : ∀ n ∈ msgs, n.isRegister = false) :
    wait_initial_object msgs = .error .connectionClosed ∧
      with_driver msgs = .error .connectionClosed ∧
      wait_initial_object msgs ≠ .error .initializationTimeout := by
  have hw : wait_initial_object msgs = .error .connectionClosed := by
    induction msgs with
    | nil => rfl
    | cons n rest ih =>
        cases n with
        | register g tag parent payload =>
            have hn := h _ (List.mem_cons_self _ _)
            simp [Note.isRegister] at hn
        | dispose g =>
            simp only [wait_initial_object]
            exact ih fun n hn => h n (List.mem_cons_of_mem _ hn)
  refine ⟨hw, ?_, ?_⟩
  · simp [with_driver, hw]
  · rw [hw]
    simp

/-- C5 witness: the stream closing after a lone disposal notification
yields the connection-closed-class failure. -/
theorem wait_initial_object_connection_closed_witness :
    wait_initial_object [Note.dispose "g1"] = .error .connectionClosed ∧
      with_driver [Note.dispose "g1"] = .error .connectionClosed :=
  ⟨(wait_initial_object_connection_closed [Note.dispose "g1"] (by decide)).1,
    (wait_initial_object_connection_closed [Note.dispose "g1"] (by decide)).2.1⟩

/-- Each connection transition strictly advances the state order
Connecting → Ready → Closing → Closed. -/
theorem connStep_rank_lt {s t : ConnState} (h : ConnStep s t) :
    s.rank < t.rank := by
  cases h <;> decide

/-- Along a valid execution, ranks are strictly increasing pairwise. -/
theorem chain_rank_pairwise (s0 : ConnState) (tr : List ConnState)
    (hc : List.Chain ConnStep s0 tr) :
    (s0 :: tr).Pairwise (fun a b => a.rank < b.rank) := by
  induction tr generalizing s0 with
  | nil => simp
  | cons t rest ih =>
      rcases List.chain_cons.mp hc with ⟨hst, hrest⟩
      have hp := ih t hrest
      have hhead := (List.pairwise_cons.mp hp).1
      refine List.pairwise_cons.mpr ⟨?_, hp⟩
      intro b hb
      rcases List.mem_cons.mp hb with rfl | hb
      · exact connStep_rank_lt hst
      · exact lt_trans (connStep_rank_lt hst) (hhead b hb)

/-- C7: the Connection State follows the order Connecting, Ready, Closing,
Closed — every transition strictly advances the order — and along every
execution of the step relation no state is ever re-entered after it has
been left (all states in a trace are pairwise distinct). -/
theorem conn_state_monotonic :
    (∀ s t : ConnState, ConnStep s t → s.rank < t.rank) ∧
      ∀ (s0 : ConnState) (tr : List ConnState), List.Chain ConnStep s0 tr →
        (s0 :: tr).Pairwise (fun a b => a ≠ b) := by
  refine ⟨fun s t h => connStep_rank_lt h, fun s0 tr hc => ?_⟩
  exact (chain_rank_pairwise s0 tr hc).imp
    fun h he => Nat.ne_of_lt h (congrArg ConnState.rank he)

/-- C7 witness: the full lifecycle trace visits each state exactly once. -/
theorem conn_state_monotonic_witness :
    ConnState.rank .connecting < ConnState.rank .ready ∧
      ([ConnState.connecting, .ready, .closing, .closed]).Pairwise
        (fun a b => a ≠ b) :=
  ⟨conn_state_monotonic.1 _ _ ConnStep.rootObserved,
    conn_state_monotonic.2 ConnState.connecting [.ready, .closing, .closed]
      (List.Chain.cons ConnStep.rootObserved
        (List.Chain.cons ConnStep.beginClose
          (List.Chain.cons ConnStep.finishClose List.Chain.nil)))⟩

/-- C8: `Driver::install` returns a `Driver` holding the default
destination path; when the destination directory already exists it performs
no filesystem action and succeeds, and when it does not exist it creates
the directory and extracts the bundled zip archive into it, succeeding
exactly when directory creation, archive opening and extraction all
succeed. -/
theorem driver_install_spec (env : FsEnv) :
    (env.isDir (Driver.default_dest env) = true →
        Driver.install env =
          ([], Except.ok (Driver.new (Driver.default_dest env)))) ∧
      (env.isDir (Driver.default_dest env) = false →
        (env.createDirOk = true → env.zipOpenOk = true → env.extractOk = true →
            Driver.install env =
              ([FsAction.createDirAll (Driver.default_dest env),
                  FsAction.extractZip (Driver.default_dest env)],
                Except.ok (Driver.new (Driver.default_dest env)))) ∧
          ((Driver.install env).2 = Except.ok (Driver.new (Driver.default_dest env)) ↔
            env.createDirOk = true ∧ env.zipOpenOk = true ∧ env.extractOk = true)) := by
  constructor
  · intro h
    unfold Driver.install
    simp [Driver.new, h]
  · intro h
    constructor
    · intro h1 h2 h3
      unfold Driver.install Driver.prepare
      simp [Driver.new, h, h1, h2, h3]
    · unfold Driver.install Driver.prepare
      rcases hc : env.createDirOk <;> rcases hz : env.zipOpenOk <;>
        rcases he : env.extractOk <;> simp [Driver.new, h, hc, hz, he]

/-- C8 witness: with the destination already a directory, install succeeds
with no action; with the destination absent and all steps succeeding, it
creates the directory and extracts the archive. -/
theorem driver_install_spec_witness :
    Driver.install ⟨some "cache", "tmp", fun _ => true, true, true, true⟩ =
        ([], Except.ok (Driver.new
          (Driver.default_dest ⟨some "cache", "tmp", fun _ => true, true, true, true⟩))) ∧
      Driver.install ⟨some "cache", "tmp", fun _ => false, true, true, true⟩ =
        ([FsAction.createDirAll
            (Driver.default_dest ⟨some "cache", "tmp", fun _ => false, true, true, true⟩),
          FsAction.extractZip
            (Driver.default_dest ⟨some "cache", "tmp", fun _ => false, true, true, true⟩)],
          Except.ok (Driver.new
            (Driver.default_dest ⟨some "cache", "tmp", fun _ => false, true, true, true⟩))) :=
  ⟨(driver_install_spec ⟨some "cache", "tmp", fun _ => true, true, true, true⟩).1 rfl,
    ((driver_install_spec ⟨some "cache", "tmp", fun _ => false, true, true, true⟩).2
      rfl).1 rfl rfl rfl⟩

/-- Delivering a response for a correlation id with no pending entry is a
no-op. -/
theorem deliver_not_pending (d : Dispatcher) (c : Nat) (payload : String)
    (h : c ∉ d.pending) : d.deliver c payload = d := by
  unfold Dispatcher.deliver
  rw [if_neg h]

/-- Delivering a response never touches another id's observed outcome. -/
theorem outcomeOf_deliver_ne (d : Dispatcher) (c : Nat) (payload : String)
    (x : Nat) (hx : x ≠ c) :
    (d.deliver c payload).outcomeOf x = d.outcomeOf x := by
  unfold Dispatcher.deliver
  by_cases h : c ∈ d.pending
  · rw [if_pos h]
    unfold Dispatcher.outcomeOf
    have : (c == x) = false := by
      simp [Ne.symm hx]
    simp [List.find?, this]
  · rw [if_neg h]

/-- Delivering a response for `c` fulfills `c`'s slot with that payload. -/
theorem outcomeOf_deliver_self (d : Dispatcher) (c : Nat) (payload : String)
    (hc : c ∈ d.pending) :
    (d.deliver c payload).outcomeOf c = some (.success payload) := by
  unfold Dispatcher.deliver
  rw [if_pos hc]
  unfold Dispatcher.outcomeOf
  simp [List.find?]

/-- Delivery for `c` leaves membership of every other id in the pending
table unchanged. -/
theorem mem_pending_deliver_ne (d : Dispatcher) (c : Nat) (payload : String)
    (x : Nat) (hx : x ≠ c) :
    (x ∈ (d.deliver c payload).pending ↔ x ∈ d.pending) := by
  unfold Dispatcher.deliver
  by_cases h : c ∈ d.pending
  · rw [if_pos h]
    simp [List.mem_filter, hx]
  · rw [if_neg h]

/-- C2: delivering a response with correlation id `c` completes exactly the
one Pending Call whose id is `c`, with that response's payload; every other
waiter's pending status and observed outcome are untouched, and two
deliveries for distinct ids commute, so outcomes do not depend on arrival
order relative to submission order. -/
theorem dispatcher_deliver_exclusive (d : Dispatcher) (c : Nat) (payload : String)
    (hc : c ∈ d.pending) :
    ((d.deliver c payload).outcomeOf c = some (.success payload) ∧
        c ∉ (d.deliver c payload).pending) ∧
      (∀ x, x ≠ c →
        ((x ∈ (d.deliver c payload).pending ↔ x ∈ d.pending) ∧
          (d.deliver c payload).outcomeOf x = d.outcomeOf x)) ∧
      (∀ c2 q, c2 ≠ c → ∀ x,
        ((d.deliver c payload).deliver c2 q).outcomeOf x =
          ((d.deliver c2 q).deliver c payload).outcomeOf x) := by
  refine ⟨⟨outcomeOf_deliver_self d c payload hc, ?_⟩,
    fun x hx => ⟨mem_pending_deliver_ne d c payload x hx,
      outcomeOf_deliver_ne d c payload x hx⟩, ?_⟩
  · unfold Dispatcher.deliver
    rw [if_pos hc]
    simp [List.mem_filter]
  · intro c2 q hne x
    by_cases hc2 : c2 ∈ d.pending
    · by_cases hxc : x = c
      · subst hxc
        rw [outcomeOf_deliver_ne _ c2 q x (Ne.symm hne),
          outcomeOf_deliver_self d x payload hc,
          outcomeOf_deliver_self _ x payload
            ((mem_pending_deliver_ne d c2 q x (Ne.symm hne)).mpr hc)]
      · by_cases hxc2 : x = c2
        · subst hxc2
          rw [outcomeOf_deliver_self _ x q
              ((mem_pending_deliver_ne d c payload x hne).mpr hc2),
            outcomeOf_deliver_ne _ c payload x hne,
            outcomeOf_deliver_self d x q hc2]
        · rw [outcomeOf_deliver_ne _ c2 q x hxc2,
            outcomeOf_deliver_ne d c payload x hxc,
            outcomeOf_deliver_ne _ c payload x hxc,
            outcomeOf_deliver_ne d c2 q x hxc2]
    · have h1 : c2 ∉ (d.deliver c payload).pending := fun hmem =>
        hc2 ((mem_pending_deliver_ne d c payload c2 hne).mp hmem)
      rw [deliver_not_pending _ c2 q h1, deliver_not_pending d c2 q hc2]

/-- C2 witness: with calls 0 and 1 outstanding, delivering the response for
id 1 resolves waiter 1 with its payload and leaves waiter 0 pending and
unresolved. -/
theorem dispatcher_deliver_exclusive_witness :
    ((Dispatcher.mk 2 [0, 1] []).deliver 1 "pong").outcomeOf 1 =
        some (.success "pong") ∧
      (0 ∈ ((Dispatcher.mk 2 [0, 1] []).deliver 1 "pong").pending ↔
        0 ∈ (Dispatcher.mk 2 [0, 1] []).pending) ∧
      ((Dispatcher.mk 2 [0, 1] []).deliver 1 "pong").outcomeOf 0 =
        (Dispatcher.mk 2 [0, 1] []).outcomeOf 0 :=
  ⟨((dispatcher_deliver_exclusive (Dispatcher.mk 2 [0, 1] []) 1 "pong"
      (by decide)).1).1,
    ((dispatcher_deliver_exclusive (Dispatcher.mk 2 [0, 1] []) 1 "pong"
      (by decide)).2.1 0 (by decide)).1,
    ((dispatcher_deliver_exclusive (Dispatcher.mk 2 [0, 1] []) 1 "pong"
      (by decide)).2.1 0 (by decide)).2⟩

/-- The first match in the failed-calls block of a closed dispatcher. -/
theorem find?_closed_map (c : Nat) (pend : List Nat)
    (completed : List (Nat × Outcome)) (h : c ∈ pend) :
    ((pend.map (fun x => (x, Outcome.connectionClosed)) ++ completed).find?
        (fun e => e.1 == c)).map (·.2) = some Outcome.connectionClosed := by
  induction pend with
  | nil => cases h
  | cons a rest ih =>
      rw [List.map_cons, List.cons_append]
      by_cases hac : a = c
      · subst hac
        rw [List.find?_cons_of_pos _ (by simp)]
        rfl
      · have hrest : c ∈ rest := by
          rcases List.mem_cons.mp h with h2 | h2
          · exact absurd h2.symm hac
          · exact h2
        rw [List.find?_cons_of_neg _ (by simp [hac])]
        exact ih hrest

/-- C3: closing the connection fails every outstanding Pending Call with
`ConnectionClosed` — the completed slots gain exactly one
`ConnectionClosed` entry per outstanding id — and leaves the pending table
empty. -/
theorem connection_close_fails_all (d : Dispatcher) :
    (d.close).pending = [] ∧
      (d.close).completed =
        d.pending.map (fun c => (c, Outcome.connectionClosed)) ++ d.completed ∧
      ∀ c ∈ d.pending, (d.close).outcomeOf c = some Outcome.connectionClosed :=
  ⟨rfl, rfl, fun c hcp => find?_closed_map c d.pending d.completed hcp⟩

/-- C3 witness: closing with ids 0 and 1 outstanding empties the pending
table, records both failures, and each failed call observes
`ConnectionClosed`. -/
theorem connection_close_fails_all_witness :
    (Dispatcher.mk 2 [0, 1] []).close.pending = [] ∧
      (Dispatcher.mk 2 [0, 1] []).close.completed =
        [(0, Outcome.connectionClosed), (1, Outcome.connectionClosed)] ∧
      (Dispatcher.mk 2 [0, 1] []).close.outcomeOf 1 =
        some Outcome.connectionClosed :=
  ⟨(connection_close_fails_all (Dispatcher.mk 2 [0, 1] [])).1,
    (connection_close_fails_all (Dispatcher.mk 2 [0, 1] [])).2.1,
    (connection_close_fails_all (Dispatcher.mk 2 [0, 1] [])).2.2 1 (by decide)⟩

/-- In a list of pairs with pairwise-distinct first components, the first
component determines the second. -/
theorem nodup_fst_functional {α β : Type} {m : List (α × β)}
    (h : (m.map (·.1)).Nodup) : ∀ p a b, (p, a) ∈ m → (p, b) ∈ m → a = b := by
  induction m with
  | nil => intro p a b h1; cases h1
  | cons e m2 ih =>
      rw [List.map_cons, List.nodup_cons] at h
      intro p a b ha hb
      rcases List.mem_cons.mp ha with ha | ha <;> rcases List.mem_cons.mp hb with hb | hb
      · rw [← hb] at ha
        rw [Prod.mk.injEq] at ha
        exact ha.2
      · exfalso
        apply h.1
        rw [← ha]
        exact List.mem_map.mpr ⟨(p, b), hb, rfl⟩
      · exfalso
        apply h.1
        rw [← hb]
        exact List.mem_map.mpr ⟨(p, a), ha, rfl⟩
      · exact ih h.2 p a b ha hb

/-- The reference-model invariant forces pairwise-distinct guids. -/
theorem chainWF_nodup {m : AncMap} (hWF : ChainWF m) : (m.map (·.1)).Nodup := by
  induction hWF with
  | nil => simp
  | consRoot g m2 hg _ ih =>
      rw [List.map_cons, List.nodup_cons]
      exact ⟨hg, ih⟩
  | consChild g p rest m2 hg _ _ ih =>
      rw [List.map_cons, List.nodup_cons]
      exact ⟨hg, ih⟩

/-- Good chains survive extending the model with a new entry. -/
theorem goodChain_mono_cons {m : AncMap} {e : Guid × List Guid} :
    ∀ {t : List Guid}, GoodChain m t → GoodChain (e :: m) t := by
  intro t
  induction t with
  | nil => intro _; trivial
  | cons a t2 ih =>
      intro h
      obtain ⟨h1, h2⟩ := h
      exact ⟨List.mem_cons_of_mem _ h1, ih h2⟩

/-- Every ancestor chain recorded in a well-formed model is good: each
element is an entry carrying the rest of the chain. -/
theorem chainWF_goodChain {m : AncMap} (hWF : ChainWF m) :
    ∀ x ancs, (x, ancs) ∈ m → GoodChain m ancs := by
  induction hWF with
  | nil => intro x ancs h; cases h
  | consRoot g m2 hg hWF2 ih =>
      intro x ancs h
      rcases List.mem_cons.mp h with h | h
      · rw [Prod.mk.injEq] at h
        obtain ⟨rfl, rfl⟩ := h
        trivial
      · exact goodChain_mono_cons (ih x ancs h)
  | consChild g p rest m2 hg hpm hWF2 ih =>
      intro x ancs h
      rcases List.mem_cons.mp h with h | h
      · rw [Prod.mk.injEq] at h
        obtain ⟨rfl, rfl⟩ := h
        exact ⟨List.mem_cons_of_mem _ hpm, goodChain_mono_cons (ih p rest hpm)⟩
      · exact goodChain_mono_cons (ih x ancs h)

/-- Every element of a good chain is a registered guid. -/
theorem goodChain_mem_fst {m : AncMap} :
    ∀ {t : List Guid}, GoodChain m t → ∀ a ∈ t, a ∈ m.map (·.1) := by
  intro t
  induction t with
  | nil => intro _ a ha; cases ha
  | cons b t2 ih =>
      intro h a ha
      obtain ⟨h1, h2⟩ := h
      rcases List.mem_cons.mp ha with rfl | ha
      · exact List.mem_map.mpr ⟨(a, t2), h1, rfl⟩
      · exact ih h2 a ha

/-- Corresponding model and registry states list the same guids in the
same order. -/
theorem corr_map_fst {m : AncMap} {l : List (Guid × Descriptor)} (h : Corr m l) :
    m.map (·.1) = l.map (·.1) := by
  induction h with
  | nil => rfl
  | cons g ancs d m2 l2 hpar h2 ih =>
      rw [List.map_cons, List.map_cons, ih]

/-- The invariant survives filtering by any predicate that keeps an
entry's parent whenever it keeps the entry. -/
theorem chainWF_filter {m : AncMap} (P : Guid × List Guid → Bool)
    (hP : ∀ x p rest, P (x, p :: rest) = true → P (p, rest) = true)
    (hWF : ChainWF m) : ChainWF (m.filter P) := by
  induction hWF with
  | nil => exact ChainWF.nil
  | consRoot g m2 hg hWF2 ih =>
      rw [List.filter_cons]
      by_cases hkeep : P (g, []) = true
      · rw [if_pos hkeep]
        refine ChainWF.consRoot g _ ?_ ih
        intro hmem
        rcases List.mem_map.mp hmem with ⟨e, he, hfe⟩
        exact hg (List.mem_map.mpr ⟨e, List.mem_of_mem_filter he, hfe⟩)
      · rw [if_neg hkeep]
        exact ih
  | consChild g p rest m2 hg hpm hWF2 ih =>
      rw [List.filter_cons]
      by_cases hkeep : P (g, p :: rest) = true
      · rw [if_pos hkeep]
        refine ChainWF.consChild g p rest _ ?_ ?_ ih
        · intro hmem
          rcases List.mem_map.mp hmem with ⟨e, he, hfe⟩
          exact hg (List.mem_map.mpr ⟨e, List.mem_of_mem_filter he, hfe⟩)
        · exact List.mem_filter.mpr ⟨hpm, hP g p rest hkeep⟩
      · rw [if_neg hkeep]
        exact ih

/-- Filtering corresponding states with pointwise-agreeing predicates
preserves the simulation relation. -/
theorem corr_filter {m : AncMap} {l : List (Guid × Descriptor)}
    (P : Guid × List Guid → Bool) (Q : Guid × Descriptor → Bool)
    (hC : Corr m l) :
    (∀ x ancs d, (x, ancs) ∈ m → (x, d) ∈ l → P (x, ancs) = Q (x, d)) →
      Corr (m.filter P) (l.filter Q) := by
  induction hC with
  | nil => intro _; exact Corr.nil
  | cons g ancs d m2 l2 hpar hC2 ih =>
      intro hPQ
      rw [List.filter_cons, List.filter_cons]
      have heq : P (g, ancs) = Q (g, d) :=
        hPQ g ancs d (List.mem_cons_self _ _) (List.mem_cons_self _ _)
      have ih2 := ih fun x a d2 hm hl =>
        hPQ x a d2 (List.mem_cons_of_mem _ hm) (List.mem_cons_of_mem _ hl)
      by_cases hkeep : P (g, ancs) = true
      · rw [if_pos hkeep, if_pos (heq.symm.trans hkeep)]
        exact Corr.cons g ancs d _ _ hpar ih2
      · rw [if_neg hkeep, if_neg fun h => hkeep (heq.trans h)]
        exact ih2

/-- The cascade set computed by the registry is exactly the disposed guid
together with the guids whose recorded ancestor chain contains it. -/
theorem mem_markDescendants_iff (g : Guid) {m : AncMap}
    {l : List (Guid × Descriptor)} (hC : Corr m l) :
    ChainWF m → ∀ x,
      (x ∈ markDescendants g l ↔ (x = g ∨ ∃ ancs, (x, ancs) ∈ m ∧ g ∈ ancs)) := by
  induction hC with
  | nil =>
      intro _ x
      simp [markDescendants]
  | cons g0 ancs0 d m2 l2 hpar hC2 ih =>
      intro hWF x
      cases hWF with
      | consRoot _ _ hg0 hWF2 =>
          have hpar2 : d.parentGuid = none := by simpa using hpar
          have hmark : markDescendants g ((g0, d) :: l2) = markDescendants g l2 := by
            simp only [markDescendants, hpar2]
          rw [hmark, ih hWF2 x]
          constructor
          · rintro (h | ⟨ancs, hm, hg⟩)
            · exact Or.inl h
            · exact Or.inr ⟨ancs, List.mem_cons_of_mem _ hm, hg⟩
          · rintro (h | ⟨ancs, hm, hg⟩)
            · exact Or.inl h
            · rcases List.mem_cons.mp hm with heq | hm2
              · rw [Prod.mk.injEq] at heq
                obtain ⟨rfl, rfl⟩ := heq
                cases hg
              · exact Or.inr ⟨ancs, hm2, hg⟩
      | consChild _ p rest _ hg0 hpm hWF2 =>
          have hpar2 : d.parentGuid = some p := by simpa using hpar
          have hfun := nodup_fst_functional (chainWF_nodup hWF2)
          have hp2 : p ∈ markDescendants g l2 ↔ (p = g ∨ g ∈ rest) := by
            rw [ih hWF2 p]
            constructor
            · rintro (h | ⟨a, ha, hga⟩)
              · exact Or.inl h
              · exact Or.inr ((hfun p a rest ha hpm) ▸ hga)
            · rintro (h | h)
              · exact Or.inl h
              · exact Or.inr ⟨rest, hpm, h⟩
          by_cases hp : p ∈ markDescendants g l2
          · have hmark : markDescendants g ((g0, d) :: l2) =
                g0 :: markDescendants g l2 := by
              simp only [markDescendants, hpar2]
              rw [if_pos hp]
            have hganc : g ∈ p :: rest := by
              rcases hp2.mp hp with h | h
              · exact h ▸ List.mem_cons_self _ _
              · exact List.mem_cons_of_mem _ h
            rw [hmark]
            constructor
            · intro hx
              rcases List.mem_cons.mp hx with rfl | hx
              · exact Or.inr ⟨p :: rest, List.mem_cons_self _ _, hganc⟩
              · rcases (ih hWF2 x).mp hx with h | ⟨ancs, hm, hg⟩
                · exact Or.inl h
                · exact Or.inr ⟨ancs, List.mem_cons_of_mem _ hm, hg⟩
            · rintro (rfl | ⟨ancs, hm, hg⟩)
              · exact List.mem_cons_of_mem _ (self_mem_markDescendants x l2)
              · rcases List.mem_cons.mp hm with heq | hm2
                · rw [Prod.mk.injEq] at heq
                  exact heq.1 ▸ List.mem_cons_self _ _
                · exact List.mem_cons_of_mem _
                    ((ih hWF2 x).mpr (Or.inr ⟨ancs, hm2, hg⟩))
          · have hmark : markDescendants g ((g0, d) :: l2) =
                markDescendants g l2 := by
              simp only [markDescendants, hpar2]
              rw [if_neg hp]
            have hgnanc : g ∉ p :: rest := by
              intro hg
              apply hp
              apply hp2.mpr
              rcases List.mem_cons.mp hg with rfl | hg
              · exact Or.inl rfl
              · exact Or.inr hg
            rw [hmark, ih hWF2 x]
            constructor
            · rintro (h | ⟨ancs, hm, hg⟩)
              · exact Or.inl h
              · exact Or.inr ⟨ancs, List.mem_cons_of_mem _ hm, hg⟩
            · rintro (h | ⟨ancs, hm, hg⟩)
              · exact Or.inl h
              · rcases List.mem_cons.mp hm with heq | hm2
                · rw [Prod.mk.injEq] at heq
                  obtain ⟨rfl, rfl⟩ := heq
                  exact absurd hg hgnanc
                · exact Or.inr ⟨ancs, hm2, hg⟩

/-- A duplicate registration is rejected and leaves the registry
unchanged. -/
theorem applyNote_register_dup {r : Registry} {g : Guid} {tag : String}
    {parent : Option Guid} {payload : String} (h : g ∈ r.guids) :
    r.applyNote (.register g tag parent payload) = r := by
  simp only [Registry.applyNote, Registry.register]
  rw [if_pos h]

/-- Registering a fresh root guid prepends its descriptor. -/
theorem applyNote_register_root {r : Registry} {g : Guid} {tag payload : String}
    (h : g ∉ r.guids) :
    r.applyNote (.register g tag none payload) =
      ⟨(g, ⟨tag, none, payload, []⟩) :: r.entries⟩ := by
  simp only [Registry.applyNote, Registry.register]
  rw [if_neg h]

/-- Registering a fresh guid under a known parent prepends its
descriptor. -/
theorem applyNote_register_child {r : Registry} {g p : Guid} {tag payload : String}
    (h : g ∉ r.guids) (hp : p ∈ r.guids) :
    r.applyNote (.register g tag (some p) payload) =
      ⟨(g, ⟨tag, some p, payload, []⟩) :: r.entries⟩ := by
  simp only [Registry.applyNote, Registry.register]
  rw [if_neg h, if_pos hp]

/-- An orphan registration is rejected and leaves the registry
unchanged. -/
theorem applyNote_register_orphan {r : Registry} {g p : Guid} {tag payload : String}
    (h : g ∉ r.guids) (hp : p ∉ r.guids) :
    r.applyNote (.register g tag (some p) payload) = r := by
  simp only [Registry.applyNote, Registry.register]
  rw [if_neg h, if_neg hp]

/-- Either `find?` by first component yields a matching entry of the list,
or the key is absent. -/
theorem find?_fst_cases (m : AncMap) (p : Guid) :
    (∃ rest, m.find? (fun e => e.1 == p) = some (p, rest) ∧ (p, rest) ∈ m) ∨
      (m.find? (fun e => e.1 == p) = none ∧ p ∉ m.map (·.1)) := by
  cases hfind : m.find? (fun e => e.1 == p) with
  | some e =>
      left
      have hmem := List.mem_of_find?_eq_some hfind
      have hpred := List.find?_some hfind
      obtain ⟨a, b⟩ := e
      simp only [beq_iff_eq] at hpred
      subst hpred
      exact ⟨b, rfl, hmem⟩
  | none =>
      right
      refine ⟨rfl, ?_⟩
      intro hmem
      rcases List.mem_map.mp hmem with ⟨e, he, hfe⟩
      have hcontra := List.find?_eq_none.mp hfind e he
      rw [hfe] at hcontra
      exact hcontra (beq_self_eq_true p)

/-- One notification preserves the simulation between the reference model
and the registry. -/
theorem inv_step {m : AncMap} {l : List (Guid × Descriptor)}
    (hWF : ChainWF m) (hC : Corr m l) (n : Note) :
    ChainWF (ancStep m n) ∧
      Corr (ancStep m n) ((Registry.mk l).applyNote n).entries := by
  have hfst := corr_map_fst hC
  have hguids : (Registry.mk l).guids = m.map (·.1) := hfst.symm
  cases n with
  | register g tag parent payload =>
      by_cases hg : g ∈ m.map (·.1)
      · have hstep : ancStep m (.register g tag parent payload) = m := by
          simp only [ancStep]
          rw [if_pos hg]
        have hgr : g ∈ (Registry.mk l).guids := by
          rw [hguids]
          exact hg
        rw [hstep, applyNote_register_dup hgr]
        exact ⟨hWF, hC⟩
      · have hg2 : g ∉ (Registry.mk l).guids := hguids ▸ hg
        cases parent with
        | none =>
            have hstep : ancStep m (.register g tag none payload) = (g, []) :: m := by
              simp only [ancStep]
              rw [if_neg hg]
            rw [hstep, applyNote_register_root hg2]
            exact ⟨ChainWF.consRoot g m hg hWF,
              Corr.cons g [] _ m l rfl hC⟩
        | some p =>
            rcases find?_fst_cases m p with ⟨rest, hfind, hpm⟩ | ⟨hfind, hpabs⟩
            · have hp2 : p ∈ (Registry.mk l).guids := by
                rw [hguids]
                exact List.mem_map.mpr ⟨(p, rest), hpm, rfl⟩
              have hstep : ancStep m (.register g tag (some p) payload) =
                  (g, p :: rest) :: m := by
                simp only [ancStep]
                rw [if_neg hg, hfind]
              rw [hstep, applyNote_register_child hg2 hp2]
              exact ⟨ChainWF.consChild g p rest m hg hpm hWF,
                Corr.cons g (p :: rest) _ m l rfl hC⟩
            · have hp2 : p ∉ (Registry.mk l).guids := hguids ▸ hpabs
              have hstep : ancStep m (.register g tag (some p) payload) = m := by
                simp only [ancStep]
                rw [if_neg hg, hfind]
              rw [hstep, applyNote_register_orphan hg2 hp2]
              exact ⟨hWF, hC⟩
  | dispose g =>
      by_cases hg : g ∈ m.map (·.1)
      · have hg2 : g ∈ (Registry.mk l).guids := hguids ▸ hg
        have hreg : (Registry.mk l).applyNote (.dispose g) =
            ⟨l.filter (fun e => ¬ e.1 ∈ markDescendants g l)⟩ := by
          show (Registry.mk l).dispose g = _
          unfold Registry.dispose
          rw [if_pos hg2]
        have hstep : ancStep m (.dispose g) =
            m.filter (fun e => ¬ (e.1 = g ∨ g ∈ e.2)) := rfl
        rw [hstep, hreg]
        constructor
        · apply chainWF_filter _ ?_ hWF
          intro x p rest hkeep
          simp only [decide_eq_true_eq] at hkeep ⊢
          intro hbad
          apply hkeep
          rcases hbad with rfl | hbad
          · exact Or.inr (List.mem_cons_self _ _)
          · exact Or.inr (List.mem_cons_of_mem _ hbad)
        · apply corr_filter _ _ hC
          intro x ancs d hm hl
          have hiff := mem_markDescendants_iff g hC hWF x
          have hcollapse : (∃ a, (x, a) ∈ m ∧ g ∈ a) ↔ g ∈ ancs := by
            constructor
            · rintro ⟨a, ha, hga⟩
              exact (nodup_fst_functional (chainWF_nodup hWF) x a ancs ha hm) ▸ hga
            · exact fun h => ⟨ancs, hm, h⟩
          show decide (¬ (x = g ∨ g ∈ ancs)) = decide (¬ x ∈ markDescendants g l)
          apply decide_eq_decide.mpr
          rw [hiff, hcollapse]
      · have hg2 : g ∉ (Registry.mk l).guids := hguids ▸ hg
        have hreg : (Registry.mk l).applyNote (.dispose g) = Registry.mk l :=
          dispose_unknown_noop (Registry.mk l) g hg2
        have hstep : ancStep m (.dispose g) = m := by
          show m.filter (fun e => ¬ (e.1 = g ∨ g ∈ e.2)) = m
          apply List.filter_eq_self.mpr
          intro e he
          simp only [decide_eq_true_eq]
          intro hbad
          rcases hbad with hbad | hbad
          · exact hg (hbad ▸ List.mem_map.mpr ⟨e, he, rfl⟩)
          · exact hg (goodChain_mem_fst (chainWF_goodChain hWF e.1 e.2 he) g hbad)
        rw [hstep, hreg]
        exact ⟨hWF, hC⟩

/-- The simulation holds after processing any notification sequence. -/
theorem inv_applyNotes (s : List Note) :
    ∀ (m : AncMap) (l : List (Guid × Descriptor)), ChainWF m → Corr m l →
      ChainWF (List.foldl ancStep m s) ∧
        Corr (List.foldl ancStep m s) ((Registry.mk l).applyNotes s).entries := by
  induction s with
  | nil =>
      intro m l hWF hC
      exact ⟨hWF, hC⟩
  | cons n rest ih =>
      intro m l hWF hC
      obtain ⟨hWF2, hC2⟩ := inv_step hWF hC n
      exact ih (ancStep m n) ((Registry.mk l).applyNote n).entries hWF2 hC2

/-- `lookup` succeeds exactly for the currently registered guids. -/
theorem lookup_isSome_iff (r : Registry) (g : Guid) :
    ((r.lookup g).isSome = true) ↔ g ∈ r.guids := by
  unfold Registry.lookup Registry.guids
  cases hfind : r.entries.find? (fun e => e.1 == g) with
  | none =>
      simp only [Option.map_none', Option.isSome_none]
      constructor
      · intro h
        cases h
      · intro h
        rcases List.mem_map.mp h with ⟨e, he, hfe⟩
        have hcontra := List.find?_eq_none.mp hfind e he
        rw [hfe] at hcontra
        exact absurd (beq_self_eq_true g) hcontra
  | some e =>
      simp only [Option.map_some', Option.isSome_some]
      constructor
      · intro _
        have hmem := List.mem_of_find?_eq_some hfind
        have hpred := List.find?_some hfind
        simp only [beq_iff_eq] at hpred
        exact List.mem_map.mpr ⟨e, hmem, hpred⟩
      · intro _
        trivial

/-- C1: after processing any sequence of register/dispose notifications
from the empty registry, `lookup g` succeeds if and only if `g` was
registered in the sequence and not subsequently disposed, either directly
or by cascade from the disposal of an ancestor in its parent chain. -/
theorem registry_lookup_iff_live (s : List Note) (g : Guid) :
    ((Registry.empty.applyNotes s).lookup g).isSome = true ↔ g ∈ liveGuids s := by
  obtain ⟨hWF, hC⟩ := inv_applyNotes s [] [] ChainWF.nil Corr.nil
  rw [lookup_isSome_iff]
  unfold liveGuids
  rw [corr_map_fst hC]
  rfl

end PlaywrightRust
